import Mathlib

/-!
Orphaned-ACL / orphaned-owner cleaner: shallow embedding and verified properties.

The Go programs `orphane-ACL-cleaner.go` and `fixOrphanedOwners.go` walk a directory tree
and, for every path, call into the Win32 security API; `Thumbs-temp-file-cleaner.go` walks a
tree and removes files by name.  The embedding below keeps the control flow of the walk
callbacks and of their drivers.  Everything the operating system answers
(return codes, the stored DACL, account lookups, error texts) is an explicit input.

Conventions.
* The target is 64-bit Windows: `int` and `uintptr` are 64 bits wide, so `int(x)` is exact for a
  `uint32` value `x`.  `uint32` arithmetic is written with an explicit `% 2 ^ 32`.
* The counters `processedFiles`, `cleanedFiles`, `changedOwners` are Go `int`s that grow by one
  per event; they are natural numbers here (a run cannot reach `2 ^ 63` events).
* A panic of the Go runtime (indexing an empty slice) is the callback result `WalkResult.panic`.
-/

namespace OrphanCleaner

/-! ## Data model (`orphane-ACL-cleaner.go`, lines 16-54) -/

/-- The constant `ACL_REVISION`. -/
def ACL_REVISION : Nat := 2

/-- ACE header structure: `AceType byte`, `AceFlags byte`, `AceSize uint16`. -/
structure ACE_HEADER where
  AceType : Nat
  AceFlags : Nat
  AceSize : Nat
deriving DecidableEq, Repr

/-- ACE structure: header, access mask and `SidStart`, the value from which the callback takes
the trustee SID. -/
structure ACE where
  Header : ACE_HEADER
  Mask : Nat
  SidStart : Nat
deriving DecidableEq, Repr

/-- The structure `ACL_SIZE_INFORMATION` filled in by `GetAclInformation`. -/
structure ACL_SIZE_INFORMATION where
  AceCount : Nat
  AclBytesInUse : Nat
  AclBytesFree : Nat
deriving DecidableEq, Repr

/-- An access-control list as the platform lays it out: the header fields of `windows.ACL`
(`AclRevision`, `AclSize`, `AceCount`) followed by the entries stored behind the header. -/
structure ACL where
  AclRevision : Nat
  AclSize : Nat
  AceCount : Nat
  aces : List ACE
deriving DecidableEq, Repr

/-- The value of `unsafe.Sizeof(windows.ACL{})`: the ACL header is 8 bytes. -/
def aclHeaderSize : Nat := 8

/-- One row of the CSV log: `Action`, `Path`, `Details`. -/
structure Record where
  Action : String
  Path : String
  Details : String
deriving DecidableEq, Repr

/-- The map `errorCodes` of `cleanOrphanedACLs`. -/
def errorCodes (code : Nat) : Option String :=
  if code = 5 then some "ERROR_ACCESS_DENIED - Zugriff verweigert"
  else if code = 1332 then some "ERROR_NONE_MAPPED - Keine SID/Name-Zuordnung verfügbar"
  else if code = 1307 then some "ERROR_INVALID_OWNER - Ungültiger Besitzer"
  else if code = 1336 then some "ERROR_INVALID_ACL - Ungültige ACL-Struktur"
  else if code = 1340 then some "ERROR_INVALID_SECURITY_DESCR - Ungültiger Security Descriptor"
  else none

/-! ## The platform -/

/-- What does not depend on the path: the account lookup (`sid.LookupAccount("")`, with `none`
for success and `some e` for the error number of a failed lookup), the string form of a SID
(`sid.String()`) and the text Go prints for an error number (`%v` of a `syscall.Errno`). -/
structure Platform where
  LookupAccount : Nat → Option Nat
  sidString : Nat → String
  errnoText : Nat → String

/-- The error `filepath.Walk` hands to the callback: its text and whether `os.IsPermission`
holds for it. -/
structure WalkErr where
  text : String
  isPermission : Bool
deriving DecidableEq, Repr

/-- One invocation of the walk callback of `cleanOrphanedACLs`: the path, the error argument of
the callback, and the answers of the platform for that path.  A call through `LazyProc.Call`
yields a return value and a last-error number; for the calls that signal failure by returning
zero the answer is `none` (success) or `some e` (failure with last error `e`).  The last error
of `LazyProc.Call` is always a `syscall.Errno`, so the type assertions at lines 179, 193 and 231
succeed and the record guarded by them is always written. -/
structure Object where
  path : String
  walkErr : Option WalkErr
  /-- Return value of `GetNamedSecurityInfoW` (zero is success). -/
  secInfoRet : Nat
  /-- The pointer `pSD` the call stored. -/
  pSD : Nat
  /-- Error of `windows.LocalFree`, if any. -/
  localFreeErr : Option Nat
  /-- Whether `GetSecurityDescriptorDacl` returned zero. -/
  daclFails : Bool
  /-- The flag `present` written by `GetSecurityDescriptorDacl`. -/
  present : Bool
  /-- The DACL the descriptor points to. -/
  dacl : ACL
  /-- Failure of `GetAclInformation`. -/
  aclInfoErr : Option Nat
  /-- Failure of the call `GetAce` for index `i`. -/
  getAceErr : Nat → Option Nat
  /-- Failure of `InitializeAcl`. -/
  initializeAclErr : Option Nat
  /-- Return value of `SetNamedSecurityInfoW` (zero is success). -/
  setSecInfoRet : Nat

/-- Win32 `GetAclInformation` with class `AclSizeInformation`: the entry count of the header, the
bytes in use (header plus the sizes of the stored entries) and the bytes left. -/
def GetAclInformation (acl : ACL) : ACL_SIZE_INFORMATION :=
  let used := aclHeaderSize + (acl.aces.map (fun a => a.Header.AceSize)).sum
  { AceCount := acl.AceCount, AclBytesInUse := used, AclBytesFree := acl.AclSize - used }

/-- Win32 `GetAce`: the entry at index `i` of the DACL, or a failure.  The index beyond the
stored entries fails with `ERROR_INVALID_PARAMETER` (87). -/
def GetAce (o : Object) (i : Nat) : Except Nat ACE :=
  match o.getAceErr i with
  | some e => .error e
  | none =>
    match o.dacl.aces[i]? with
    | some a => .ok a
    | none => .error 87

/-- Win32 `InitializeAcl` on success: the buffer holds the header of an empty ACL of the given
length and revision.  The call receives the buffer, its length and the revision, nothing else. -/
def InitializeAcl (nAclLength dwAclRevision : Nat) : ACL :=
  { AclRevision := dwAclRevision, AclSize := nAclLength, AceCount := 0, aces := [] }

/-! ## `cleanOrphanedACLs` (`orphane-ACL-cleaner.go`, lines 90-268) -/

/-- A call of `SetNamedSecurityInfoW`: the path, the DACL buffer handed over and the return
value of the call. -/
structure WriteCall where
  path : String
  newDacl : ACL
  ret : Nat
deriving DecidableEq, Repr

/-- The variables the callback closes over (`processedFiles`, `cleanedFiles`, the log writer)
together with the trace of write calls issued so far. -/
structure State where
  processedFiles : Nat
  cleanedFiles : Nat
  logFile : List Record
  writes : List WriteCall
deriving DecidableEq, Repr

/-- The value a walk callback returns: `nil`, `filepath.SkipDir`, or no value (panic). -/
inductive WalkResult where
  | nil
  | SkipDir
  | panic
deriving DecidableEq, Repr

/-- The statement `logFile.Write(record)`. -/
def State.Write (s : State) (r : Record) : State :=
  { s with logFile := s.logFile ++ [r] }

/-- The error message built at lines 134-137, 194-197 and 247-250: the label and the error text,
followed by the entry of `errorCodes` for `uint32(errno)` in brackets when there is one. -/
def errorMsg (P : Platform) (label : String) (errno : Nat) : String :=
  let base := label ++ P.errnoText errno
  match errorCodes (errno % 2 ^ 32) with
  | some msg => base ++ " (" ++ msg ++ ")"
  | none => base

/-- The variables the loop over the entries (lines 185-216) updates. -/
structure LoopState where
  validACEs : List ACE
  logFile : List Record
  cleanedFiles : Nat
deriving DecidableEq, Repr

/-- The body of the loop at lines 186-216 for index `i`. -/
def aceLoopBody (P : Platform) (o : Object) (st : LoopState) (i : Nat) : LoopState :=
  match GetAce o i with
  | .error errNo =>
    { st with logFile := st.logFile ++ [⟨"ERROR", o.path, errorMsg P "ACE-Fehler: " errNo⟩] }
  | .ok ace =>
    match P.LookupAccount ace.SidStart with
    | none => { st with validACEs := st.validACEs ++ [ace] }
    | some err =>
      { st with
        logFile := st.logFile ++ [⟨"INFO", o.path,
          "Verwaiste SID entfernt: " ++ P.sidString ace.SidStart
            ++ " (" ++ P.errnoText err ++ ")"⟩],
        cleanedFiles := st.cleanedFiles + 1 }

/-- The loop `for i := uint32(0); i < aclInfo.AceCount; i++` of lines 186-216. -/
def aceLoop (P : Platform) (o : Object) (AceCount : Nat) (st : LoopState) : LoopState :=
  (List.range AceCount).foldl (aceLoopBody P o) st

/-- The computation of lines 220-223: `uint32` addition of the kept entries' `AceSize`, starting
from the header size. -/
def newAclSize (validACEs : List ACE) : Nat :=
  validACEs.foldl (fun size ace => (size + ace.Header.AceSize) % 2 ^ 32) (aclHeaderSize % 2 ^ 32)

/-- Lines 218-261: build the new ACL when entries were dropped and hand it to the write call. -/
def writeBack (P : Platform) (o : Object) (s : State) (AceCount : Nat) (validACEs : List ACE) :
    WalkResult × State :=
  if validACEs.length < AceCount then
    let size := newAclSize validACEs
    -- `&newDacl[0]` on a slice of length zero
    if size = 0 then (.panic, s)
    else
      match o.initializeAclErr with
      | some errNo =>
        (.nil, s.Write ⟨"ERROR", o.path, "Neue ACL-Fehler: " ++ P.errnoText errNo⟩)
      | none =>
        let newDacl := InitializeAcl size ACL_REVISION
        let s1 : State := { s with writes := s.writes ++ [⟨o.path, newDacl, o.setSecInfoRet⟩] }
        if o.setSecInfoRet ≠ 0 then
          (.nil, s1.Write ⟨"ERROR", o.path, errorMsg P "ACL-Update-Fehler: " o.setSecInfoRet⟩)
        else
          let msg := "ACLs bereinigt: "
            ++ toString ((AceCount : Int) - (validACEs.length : Int)) ++ " entfernt"
          (.nil, s1.Write ⟨"UPDATED", o.path, msg⟩)
  else (.nil, s)

/-- Whether `syscall.UTF16PtrFromString` fails (with `EINVAL`): the path holds a NUL. -/
def hasNul (path : String) : Bool :=
  path.toList.any (fun c => c == Char.ofNat 0)

/-- Lines 146-155: the descriptor is released when `pSD` is not zero, and a failure of
`windows.LocalFree` is logged; the callback goes on in either case. -/
def freeSD (P : Platform) (o : Object) (s : State) : State :=
  if o.pSD ≠ 0 then
    match o.localFreeErr with
    | some e => s.Write ⟨"ERROR", o.path, "Speicherfreigabe fehlgeschlagen: " ++ P.errnoText e⟩
    | none => s
  else s

/-- The callback passed to `filepath.Walk` in `cleanOrphanedACLs` (lines 102-262). -/
def cleanOrphanedACLs_walkFn (P : Platform) (s : State) (o : Object) : WalkResult × State :=
  match o.walkErr with
  | some err =>
    let s1 := s.Write ⟨"ERROR", o.path, "Scan-Fehler: " ++ err.text⟩
    if err.isPermission then (.SkipDir, s1) else (.nil, s1)
  | none =>
    let s1 := { s with processedFiles := s.processedFiles + 1 }
    if hasNul o.path then
      (.nil, s1.Write ⟨"ERROR", o.path, "Pfad-Konvertierung fehlgeschlagen: invalid argument"⟩)
    else if o.secInfoRet ≠ 0 then
      let s2 := s1.Write ⟨"ERROR", o.path, errorMsg P "Security-Info-Fehler: " o.secInfoRet⟩
      if o.secInfoRet % 2 ^ 32 = 5 then (.SkipDir, s2) else (.nil, s2)
    else
      let s2 := freeSD P o s1
      if o.daclFails || !o.present then
        (.nil, s2.Write ⟨"ERROR", o.path, "DACL-Fehler"⟩)
      else
        match o.aclInfoErr with
        | some errNo =>
          (.nil, s2.Write ⟨"ERROR", o.path, "ACL-Info-Fehler: " ++ P.errnoText errNo⟩)
        | none =>
          let aclInfo := GetAclInformation o.dacl
          let st := aceLoop P o aclInfo.AceCount ⟨[], s2.logFile, s2.cleanedFiles⟩
          let s3 := { s2 with logFile := st.logFile, cleanedFiles := st.cleanedFiles }
          writeBack P o s3 aclInfo.AceCount st.validACEs

/-- The traversal: the callback is invoked for each visit in turn; a panic ends the program.
Which paths the walk visits is decided by `filepath.Walk`; the visits it makes are the input. -/
def walkAll (P : Platform) : State → List Object → WalkResult × State
  | s, [] => (.nil, s)
  | s, o :: os =>
    match cleanOrphanedACLs_walkFn P s o with
    | (.panic, s1) => (.panic, s1)
    | (_, s1) => walkAll P s1 os

/-- The function `cleanOrphanedACLs`: both counters start at zero, the walk runs, and the
summary record is written (lines 264-267) unless the program panicked. -/
def cleanOrphanedACLs (P : Platform) (rootPath : String) (logFile : List Record)
    (visits : List Object) : WalkResult × State :=
  match walkAll P ⟨0, 0, logFile, []⟩ visits with
  | (.panic, s) => (.panic, s)
  | (_, s) =>
    let summary := "Verarbeitet: " ++ toString s.processedFiles
      ++ ", Bereinigt: " ++ toString s.cleanedFiles
    (.nil, s.Write ⟨"SUMMARY", rootPath, summary⟩)

/-! ## `fixOrphanedOwners` (`fixOrphanedOwners.go`, lines 70-112) -/

/-- One invocation of the walk callback of `fixOrphanedOwners`: the path, the error argument
of the callback, the owner SID stored for the object, and the errors (if any) of
`acl.GetSecurityInfo`, `sd.GetOwner` and `acl.SetSecurityInfo` for that path. -/
structure OwnerObject where
  path : String
  walkErr : Option WalkErr
  getSecurityInfoErr : Option String
  getOwnerErr : Option String
  owner : Nat
  setSecurityInfoErr : Option String
deriving DecidableEq, Repr

/-- A call of `acl.SetSecurityInfo` with `OWNER_SECURITY_INFORMATION`: path and new owner. -/
structure OwnerWrite where
  path : String
  newOwner : Nat
deriving DecidableEq, Repr

/-- The variables the callback of `fixOrphanedOwners` closes over, with the trace of the write
calls issued so far. -/
structure OwnerState where
  processedFiles : Nat
  changedOwners : Nat
  logFile : List Record
  writes : List OwnerWrite
deriving DecidableEq, Repr

/-- The statement `logFile.Write(record)`. -/
def OwnerState.Write (s : OwnerState) (r : Record) : OwnerState :=
  { s with logFile := s.logFile ++ [r] }

/-- The effect of `acl.SetSecurityInfo(path, SE_FILE_OBJECT, OWNER_SECURITY_INFORMATION,
newOwnerSID, nil, nil, nil)`: on success the owner of the object is the SID handed over; on
failure the object is left as it was. -/
def SetSecurityInfo (o : OwnerObject) (newOwnerSID : Nat) : Except String OwnerObject :=
  match o.setSecurityInfoErr with
  | some e => .error e
  | none => .ok { o with owner := newOwnerSID }

/-- The callback passed to `filepath.Walk` in `fixOrphanedOwners` (lines 73-108).  Besides the
returned value and the updated variables it yields the object as the step leaves it. -/
def fixOrphanedOwners_walkFn (P : Platform) (newOwnerSID : Nat) (s : OwnerState)
    (o : OwnerObject) : WalkResult × OwnerState × OwnerObject :=
  match o.walkErr with
  | some err => (.SkipDir, s.Write ⟨"ERROR", o.path, "Scan-Fehler: " ++ err.text⟩, o)
  | none =>
    let s1 := { s with processedFiles := s.processedFiles + 1 }
    match o.getSecurityInfoErr with
    | some err => (.nil, s1.Write ⟨"ERROR", o.path, "Owner-Info-Fehler: " ++ err⟩, o)
    | none =>
      match o.getOwnerErr with
      | some err => (.nil, s1.Write ⟨"ERROR", o.path, "Owner-Abruf-Fehler: " ++ err⟩, o)
      | none =>
        match P.LookupAccount o.owner with
        | some _ =>
          let s2 : OwnerState := { s1 with writes := s1.writes ++ [⟨o.path, newOwnerSID⟩] }
          match SetSecurityInfo o newOwnerSID with
          | .error err =>
            (.nil, s2.Write ⟨"ERROR", o.path, "Owner-Update-Fehler: " ++ err⟩, o)
          | .ok o1 =>
            (.nil, { s2 with changedOwners := s2.changedOwners + 1 }.Write
              ⟨"UPDATED", o.path, "Neuer Besitzer gesetzt: " ++ P.sidString newOwnerSID⟩, o1)
        | none => (.nil, s1, o)

/-- The function `fixOrphanedOwners`: both counters start at zero, the callback runs for each
visit the walk makes, and the summary record is written (lines 110-111). -/
def fixOrphanedOwners (P : Platform) (rootPath : String) (newOwnerSID : Nat)
    (logFile : List Record) (visits : List OwnerObject) : OwnerState :=
  let s := visits.foldl (fun st o => (fixOrphanedOwners_walkFn P newOwnerSID st o).2.1)
    ⟨0, 0, logFile, []⟩
  s.Write ⟨"SUMMARY", rootPath, "Verarbeitet: " ++ toString s.processedFiles
    ++ ", Geändert: " ++ toString s.changedOwners⟩

/-! ## Vocabulary of the properties -/

/-- The entries `cleanOrphanedACLs` retains for an object: the list `validACEs` after the loop
over the `AceCount` entries reported by `GetAclInformation`. -/
def retained (P : Platform) (o : Object) : List ACE :=
  (aceLoop P o (GetAclInformation o.dacl).AceCount ⟨[], [], 0⟩).validACEs

/-- The calls before the loop over the entries all succeed: no walk error, the path converts,
and `GetNamedSecurityInfoW`, `GetSecurityDescriptorDacl` and `GetAclInformation` succeed. -/
def readsOk (o : Object) : Prop :=
  o.walkErr = none ∧ hasNul o.path = false ∧ o.secInfoRet = 0 ∧ o.daclFails = false ∧
    o.present = true ∧ o.aclInfoErr = none

instance (o : Object) : Decidable (readsOk o) := by
  unfold readsOk
  infer_instance

/-- The records the callback appends to the log for one object. -/
def emitted (P : Platform) (s : State) (o : Object) : List Record :=
  (cleanOrphanedACLs_walkFn P s o).2.logFile.drop s.logFile.length

/-- The calls of `SetNamedSecurityInfoW` the callback issues for one object. -/
def issued (P : Platform) (s : State) (o : Object) : List WriteCall :=
  (cleanOrphanedACLs_walkFn P s o).2.writes.drop s.writes.length

/-- A terminal outcome record: its action is neither `INFO` nor `SUMMARY`. -/
def isTerminal (r : Record) : Bool :=
  r.Action != "INFO" && r.Action != "SUMMARY"


/-- Whether the account lookup for the trustee of an entry succeeds. -/
def resolvable (P : Platform) (a : ACE) : Bool :=
  (P.LookupAccount a.SidStart).isNone

/-! ## Concrete inputs -/

/-- A platform on which the account lookup fails (1332, no mapping) exactly for SID 2. -/
def demoPlatform : Platform :=
  { LookupAccount := fun sid => if sid = 2 then some 1332 else none,
    sidString := fun _ => "S-1-5-21-1-2-3-1001",
    errnoText := fun _ => "Fehler" }

/-- Entry `A`: an allow entry of 20 bytes for the resolvable SID 1. -/
def aceA : ACE := ⟨⟨0, 0, 20⟩, 2032127, 1⟩

/-- Entry `B`: an allow entry of 36 bytes for the unresolvable SID 2. -/
def aceB : ACE := ⟨⟨0, 0, 36⟩, 1179817, 2⟩

/-- Entry `C`: an allow entry of 24 bytes for the resolvable SID 3. -/
def aceC : ACE := ⟨⟨0, 0, 24⟩, 2032127, 3⟩

/-- An object on which every call succeeds and whose DACL holds the given entries. -/
def objectWith (path : String) (aces : List ACE) : Object :=
  { path := path, walkErr := none, secInfoRet := 0, pSD := 4096, localFreeErr := none,
    daclFails := false, present := true,
    dacl := ⟨2, aclHeaderSize + (aces.map (fun a => a.Header.AceSize)).sum, aces.length, aces⟩,
    aclInfoErr := none, getAceErr := fun _ => none, initializeAclErr := none,
    setSecInfoRet := 0 }

/-- The scenario of the specification: entries `[A, B, C]` with `B` unresolvable. -/
def objectABC : Object := objectWith "C:\\data\\report.txt" [aceA, aceB, aceC]

/-- A file with the resolvable entries `[A, C]` only, every call succeeding. -/
def objectClean : Object := objectWith "C:\\data\\clean.txt" [aceA, aceC]

/-- A file whose security descriptor cannot be read: `GetNamedSecurityInfoW` returns 5. -/
def objectDenied : Object :=
  { objectWith "C:\\data\\secret.txt" [aceA] with secInfoRet := 5, pSD := 0 }

/-- A file with the single unresolvable entry `B` on which `SetNamedSecurityInfoW` returns 5. -/
def objectWriteDenied : Object :=
  { objectWith "C:\\data\\locked.txt" [aceB] with setSecInfoRet := 5 }

/-- A file with the entries `[A, B]` on which both calls of `GetAce` fail (error 87). -/
def objectAceErrors : Object :=
  { objectWith "C:\\data\\broken.txt" [aceA, aceB] with getAceErr := fun _ => some 87 }

/-- A file owned by the unresolvable SID 2, on which every call succeeds. -/
def ownerOrphan : OwnerObject :=
  { path := "C:\\data\\report.txt", walkErr := none, getSecurityInfoErr := none,
    getOwnerErr := none, owner := 2, setSecurityInfoErr := none }

/-- The state before the first visit of a run of `fixOrphanedOwners`. -/
def initOwnerState : OwnerState := ⟨0, 0, [], []⟩

/-- The state before the first visit of a run. -/
def initState : State := ⟨0, 0, [], []⟩

/-! ## `cleanupTempFiles` (`Thumbs-temp-file-cleaner.go`, lines 47-89)

A Go string is a sequence of bytes.  File names and patterns are lists of `Char`, one `Char`
per byte (the `Char` with the code of the byte), so an ASCII text is the list of its
characters.  `filepath.Match` and `strings.ToLower` belong to the Go library; they are embedded
as far as the program uses them. -/

/-- The operating system the program is built for, as far as `path/filepath` depends on it. -/
inductive GOOS where
  | windows
  | unix
deriving DecidableEq, Repr

/-- The constant `filepath.Separator`: a backslash (92) on Windows, a slash (47) elsewhere. -/
def Separator : GOOS → Char
  | .windows => Char.ofNat 92
  | .unix => Char.ofNat 47

/-- The slice `patterns` of `cleanupTempFiles` (lines 50-59). -/
def patterns : List String :=
  ["thumbs.db", "~$*.docx", "~$*.doc", "~$*.xlsx", "~$*.xls", "~$*.pptx", "~$*.ppt", "~*.tmp"]

/-- Go `scanChunk` of `path/filepath`: the leading stars are consumed, the chunk runs up to the
next star.  The cases for a bracket and a backslash are left out: no pattern of the program
holds one. -/
def scanChunk (pattern : List Char) : Bool × List Char × List Char :=
  let afterStars := pattern.dropWhile (fun c => c == '*')
  let star := decide (afterStars.length < pattern.length)
  (star, afterStars.takeWhile (fun c => c != '*'), afterStars.dropWhile (fun c => c != '*'))

/-- Go `matchChunk` of `path/filepath` for a chunk of literal bytes: the chunk must be found at
the beginning of `s`; the result is the rest of `s`, or `none` when the match failed.  The cases
for `[`, `?` and the escape are left out: no pattern of the program holds one. -/
def matchChunk : List Char → List Char → Option (List Char)
  | [], s => some s
  | _ :: _, [] => none
  | c :: chunk, x :: s => if c = x then matchChunk chunk s else none

/-- The inner loop of Go `filepath.Match` after a star: skip `i + 1` bytes of the name, none of
them a separator, and look for the chunk there.  `last` says that the chunk is the last one of
the pattern (then the name has to be exhausted), `k` is the rest of the outer loop. -/
def starLoop (sep : Char) (chunk : List Char) (last : Bool) (k : List Char → Option Bool) :
    List Char → Option Bool
  | [] => some false
  | x :: s =>
    if x = sep then some false
    else
      match matchChunk chunk s with
      | some t => if last && !t.isEmpty then starLoop sep chunk last k s else k t
      | none => starLoop sep chunk last k s

/-- The loop `Pattern:` of Go `filepath.Match`.  Every round consumes a part of the pattern;
the recursion runs on a bound for the number of rounds and yields `none` when the bound is
used up. -/
def MatchLoop (sep : Char) : Nat → List Char → List Char → Option Bool
  | 0, _, _ => none
  | fuel + 1, pattern, name =>
    if pattern.isEmpty then some name.isEmpty
    else
      match scanChunk pattern with
      | (star, chunk, rest) =>
        if star && chunk.isEmpty then some (!name.contains sep)
        else
          match matchChunk chunk name with
          | some t =>
            if t.isEmpty || !rest.isEmpty then MatchLoop sep fuel rest t
            else if star then
              starLoop sep chunk rest.isEmpty (fun u => MatchLoop sep fuel rest u) name
            else some false
          | none =>
            if star then
              starLoop sep chunk rest.isEmpty (fun u => MatchLoop sep fuel rest u) name
            else some false

/-- Go `filepath.Match(pattern, name)`; one round more than the pattern has bytes. -/
def Match (os : GOOS) (pattern name : List Char) : Option Bool :=
  MatchLoop (Separator os) (pattern.length + 1) pattern name

/-- Go `strings.ToLower`: a string of ASCII bytes has its letters `A`-`Z` replaced by `a`-`z`;
any other string goes through `strings.Map(unicode.ToLower, s)`, which is the input `MapLower`. -/
def ToLower (MapLower : List Char → List Char) (s : List Char) : List Char :=
  if s.all (fun c => decide (c.toNat < 128)) then s.map Char.toLower else MapLower s

/-- One invocation of the walk callback of `cleanupTempFiles`: the path, the error argument,
`info.IsDir()`, `info.Name()`, the error of `os.Remove(path)` if the call is made, and the
time stamp `time.Now().Format(time.RFC3339)` at that moment. -/
structure TempVisit where
  path : String
  walkErr : Option WalkErr
  isDir : Bool
  name : List Char
  removeErr : Option String
  now : String
deriving DecidableEq, Repr

/-- The variables the callback of `cleanupTempFiles` closes over, with the trace of the paths
handed to `os.Remove`. -/
structure TempState where
  scannedFiles : Nat
  deletedFiles : Nat
  logFile : List Record
  removes : List String
deriving DecidableEq, Repr

/-- The statement `logFile.Write(record)`. -/
def TempState.Write (s : TempState) (r : Record) : TempState :=
  { s with logFile := s.logFile ++ [r] }

/-- Lines 74-79: `os.Remove(path)` and the record of its outcome. -/
def removeFile (s : TempState) (v : TempVisit) : TempState :=
  let s1 : TempState := { s with removes := s.removes ++ [v.path] }
  match v.removeErr with
  | none => { s1.Write ⟨"DELETE", v.path, v.now⟩ with deletedFiles := s1.deletedFiles + 1 }
  | some err => s1.Write ⟨"ERROR", v.path, "Löschfehler: " ++ err⟩

/-- The loop over the patterns (lines 71-82): the first pattern that matches triggers the
removal and ends the loop. -/
def matchPatterns (os : GOOS) (fileName : List Char) (s : TempState) (v : TempVisit) :
    List String → TempState
  | [] => s
  | pattern :: more =>
    match Match os pattern.toList fileName with
    | some true => removeFile s v
    | _ => matchPatterns os fileName s v more

/-- The callback passed to `filepath.Walk` in `cleanupTempFiles` (lines 61-85); it returns
`nil` on every path, so only the updated variables are given. -/
def cleanupTempFiles_walkFn (os : GOOS) (MapLower : List Char → List Char) (s : TempState)
    (v : TempVisit) : TempState :=
  match v.walkErr with
  | some err => s.Write ⟨"ERROR", v.path, "Scan-Fehler: " ++ err.text⟩
  | none =>
    if !v.isDir then
      let s1 : TempState := { s with scannedFiles := s.scannedFiles + 1 }
      let fileName := ToLower MapLower v.name
      matchPatterns os fileName s1 v patterns
    else s

/-- The function `cleanupTempFiles`: both counters start at zero, the callback runs for each
visit the walk makes, and the summary record is written (lines 87-88). -/
def cleanupTempFiles (os : GOOS) (MapLower : List Char → List Char) (rootPath : String)
    (logFile : List Record) (visits : List TempVisit) : TempState :=
  let s := visits.foldl (cleanupTempFiles_walkFn os MapLower) ⟨0, 0, logFile, []⟩
  s.Write ⟨"SUMMARY", rootPath, "Überprüft: " ++ toString s.scannedFiles
    ++ ", Gelöscht: " ++ toString s.deletedFiles⟩

/-- The decision in the words of the specification, on the lower-cased name: the name is
`thumbs.db`, or starts with `~$` and ends with an Office extension, or starts with `~` and ends
with `.tmp`. -/
def unwanted (lower : List Char) : Bool :=
  lower == "thumbs.db".toList ||
  ("~$".toList.isPrefixOf lower &&
    [".docx", ".doc", ".xlsx", ".xls", ".pptx", ".ppt"].any
      (fun ext => ext.toList.isSuffixOf lower)) ||
  ("~".toList.isPrefixOf lower && ".tmp".toList.isSuffixOf lower)

/-- The paths the callback hands to `os.Remove` for one visit. -/
def attempted (os : GOOS) (MapLower : List Char → List Char) (s : TempState) (v : TempVisit) :
    List String :=
  (cleanupTempFiles_walkFn os MapLower s v).removes.drop s.removes.length

/-- The records the callback of `cleanupTempFiles` appends to the log for one visit. -/
def recorded (os : GOOS) (MapLower : List Char → List Char) (s : TempState) (v : TempVisit) :
    List Record :=
  (cleanupTempFiles_walkFn os MapLower s v).logFile.drop s.logFile.length

/-- A file visited without error whose name is given as a text; `os.Remove` succeeds. -/
def tempFile (name : String) : TempVisit :=
  { path := "C:\\data\\" ++ name, walkErr := none, isDir := false, name := name.toList,
    removeErr := none, now := "2024-05-01T10:00:00+02:00" }

/-- The state before the first visit of a run of `cleanupTempFiles`. -/
def initTempState : TempState := ⟨0, 0, [], []⟩

end OrphanCleaner


/-! ## Properties of `cleanOrphanedACLs` -/

namespace OrphanCleaner

theorem aceLoop_succ (P : Platform) (o : Object) (n : Nat) (st : LoopState) :
    aceLoop P o (n + 1) st = aceLoopBody P o (aceLoop P o n st) n := by
  simp [aceLoop, List.range_succ, List.foldl_append]

theorem GetAce_ok {o : Object} {i : Nat} {a : ACE} (h : GetAce o i = .ok a) :
    o.dacl.aces[i]? = some a := by
  unfold GetAce at h
  split at h
  · cases h
  · split at h
    · rename_i b hb
      cases h
      exact hb
    · cases h

theorem take_succ_of_getAce {o : Object} {n : Nat} {a : ACE} (h : GetAce o n = .ok a) :
    o.dacl.aces.take (n + 1) = o.dacl.aces.take n ++ [a] := by
  rw [List.take_succ, GetAce_ok h]
  rfl

/-- When the calls of `GetAce` succeed, the loop keeps the resolvable entries, in order. -/
theorem aceLoop_valid_of_getAce_ok (P : Platform) (o : Object) (n : Nat)
    (h : ∀ i, i < n → ∃ a, GetAce o i = .ok a) (st : LoopState) :
    (aceLoop P o n st).validACEs
      = st.validACEs ++ (o.dacl.aces.take n).filter (resolvable P) := by
  induction n with
  | zero => simp [aceLoop]
  | succ n ih =>
    obtain ⟨a, ha⟩ := h n (Nat.lt_succ_self n)
    have ih1 := ih (fun i hi => h i (Nat.lt_succ_of_lt hi))
    rw [aceLoop_succ, take_succ_of_getAce ha, List.filter_append]
    unfold aceLoopBody
    rw [ha]
    cases hl : P.LookupAccount a.SidStart with
    | none => simp [ih1, resolvable, hl]
    | some e => simp [ih1, resolvable, hl]

/-- Whatever the calls answer, the kept entries are a sub-sequence of the stored entries. -/
theorem aceLoop_valid_sublist (P : Platform) (o : Object) (n : Nat) (st : LoopState) :
    ∃ l, (aceLoop P o n st).validACEs = st.validACEs ++ l ∧ l.Sublist (o.dacl.aces.take n) := by
  induction n with
  | zero => exact ⟨[], by simp [aceLoop]⟩
  | succ n ih =>
    obtain ⟨l, hl, hsub⟩ := ih
    rw [aceLoop_succ]
    unfold aceLoopBody
    cases hg : GetAce o n with
    | error e =>
      exact ⟨l, by simpa using hl, hsub.trans
        (by rw [List.take_succ]; exact List.sublist_append_left _ _)⟩
    | ok a =>
      cases hlk : P.LookupAccount a.SidStart with
      | none =>
        refine ⟨l ++ [a], by simp [hl, hlk], ?_⟩
        rw [take_succ_of_getAce hg]
        exact List.Sublist.append hsub (List.Sublist.refl _)
      | some e =>
        exact ⟨l, by simpa [hlk] using hl, hsub.trans
          (by rw [List.take_succ]; exact List.sublist_append_left _ _)⟩

theorem foldl_size_eq (l : List ACE) (acc : Nat)
    (h : acc + (l.map (fun a => a.Header.AceSize)).sum < 2 ^ 32) :
    l.foldl (fun size ace => (size + ace.Header.AceSize) % 2 ^ 32) acc
      = acc + (l.map (fun a => a.Header.AceSize)).sum := by
  induction l generalizing acc with
  | nil => simp
  | cons a l ih =>
    simp only [List.map_cons, List.sum_cons] at h
    simp only [List.foldl_cons, List.map_cons, List.sum_cons]
    have h1 : (acc + a.Header.AceSize) % 2 ^ 32 = acc + a.Header.AceSize :=
      Nat.mod_eq_of_lt (by omega)
    rw [h1, ih (acc + a.Header.AceSize) (by omega)]
    omega

/-- Without wrap-around the computed size is the header size plus the kept sizes. -/
theorem newAclSize_eq (l : List ACE)
    (h : aclHeaderSize + (l.map (fun a => a.Header.AceSize)).sum < 2 ^ 32) :
    newAclSize l = aclHeaderSize + (l.map (fun a => a.Header.AceSize)).sum := by
  unfold newAclSize
  have h8 : aclHeaderSize % 2 ^ 32 = aclHeaderSize := by decide
  rw [h8]
  exact foldl_size_eq l aclHeaderSize h

/-- The kept entries do not depend on the log and the counter the loop starts from. -/
theorem aceLoop_valid_indep (P : Platform) (o : Object) (n : Nat) (v : List ACE)
    (l l1 : List Record) (c c1 : Nat) :
    (aceLoop P o n ⟨v, l, c⟩).validACEs = (aceLoop P o n ⟨v, l1, c1⟩).validACEs := by
  induction n with
  | zero => simp [aceLoop]
  | succ n ih =>
    rw [aceLoop_succ, aceLoop_succ]
    unfold aceLoopBody
    cases hg : GetAce o n with
    | error e => simpa using ih
    | ok a =>
      cases hlk : P.LookupAccount a.SidStart with
      | none => simp [hlk, ih]
      | some e => simpa [hlk] using ih

theorem aceLoop_valid_eq_retained (P : Platform) (o : Object) (l : List Record) (c : Nat) :
    (aceLoop P o (GetAclInformation o.dacl).AceCount ⟨[], l, c⟩).validACEs = retained P o :=
  aceLoop_valid_indep P o _ [] l [] c 0

/-- When the calls of `GetAce` succeed, the loop logs `INFO` records only, one per dropped
entry, and counts each of them in `cleanedFiles`. -/
theorem aceLoop_log_of_getAce_ok (P : Platform) (o : Object) (n : Nat)
    (h : ∀ i, i < n → ∃ a, GetAce o i = .ok a) (st : LoopState) :
    ∃ infos : List Record,
      (aceLoop P o n st).logFile = st.logFile ++ infos ∧
      (∀ r ∈ infos, r.Action = "INFO") ∧
      (aceLoop P o n st).cleanedFiles = st.cleanedFiles + infos.length ∧
      (aceLoop P o n st).validACEs.length + infos.length = st.validACEs.length + n := by
  induction n with
  | zero => exact ⟨[], by simp [aceLoop]⟩
  | succ n ih =>
    obtain ⟨a, ha⟩ := h n (Nat.lt_succ_self n)
    obtain ⟨infos, h1, h2, h3, h4⟩ := ih (fun i hi => h i (Nat.lt_succ_of_lt hi))
    rw [aceLoop_succ]
    unfold aceLoopBody
    rw [ha]
    dsimp only
    cases hlk : P.LookupAccount a.SidStart with
    | none =>
      refine ⟨infos, by simpa using h1, h2, by simpa using h3, ?_⟩
      simp only [List.length_append, List.length_singleton]
      omega
    | some e =>
      refine ⟨infos ++ [⟨"INFO", o.path, "Verwaiste SID entfernt: " ++ P.sidString a.SidStart
        ++ " (" ++ P.errnoText e ++ ")"⟩], by simp [h1], ?_, ?_, ?_⟩
      · intro r hr
        rcases List.mem_append.mp hr with hr1 | hr1
        · exact h2 r hr1
        · simp at hr1
          simp [hr1]
      · simp only [List.length_append, List.length_singleton]
        omega
      · simp only [List.length_append, List.length_singleton]
        omega

/-- The callback on an object whose calls before the loop succeed: the descriptor is released,
the loop runs and the result is written back. -/
theorem walkFn_of_readsOk (P : Platform) (s : State) (o : Object) (h : readsOk o) :
    cleanOrphanedACLs_walkFn P s o =
      writeBack P o
        { freeSD P o { s with processedFiles := s.processedFiles + 1 } with
          logFile := (aceLoop P o (GetAclInformation o.dacl).AceCount
            ⟨[], (freeSD P o { s with processedFiles := s.processedFiles + 1 }).logFile,
              (freeSD P o { s with processedFiles := s.processedFiles + 1 }).cleanedFiles⟩).logFile,
          cleanedFiles := (aceLoop P o (GetAclInformation o.dacl).AceCount
            ⟨[], (freeSD P o { s with processedFiles := s.processedFiles + 1 }).logFile,
              (freeSD P o { s with processedFiles := s.processedFiles + 1 }).cleanedFiles⟩).cleanedFiles }
        (GetAclInformation o.dacl).AceCount (retained P o) := by
  obtain ⟨h1, h2, h3, h4, h5, h6⟩ := h
  unfold cleanOrphanedACLs_walkFn
  simp only [h1, h2, h3, h4, h5, h6, aceLoop_valid_eq_retained]
  simp

/-- The release of the descriptor leaves the counters and the write trace alone. -/
theorem freeSD_fields (P : Platform) (o : Object) (s : State) :
    (freeSD P o s).processedFiles = s.processedFiles ∧
    (freeSD P o s).cleanedFiles = s.cleanedFiles ∧
    (freeSD P o s).writes = s.writes := by
  unfold freeSD
  split
  · split <;> simp [State.Write]
  · simp

/-- The write trace after `writeBack`: one call is added exactly when entries were dropped, the
buffer could be allocated and `InitializeAcl` succeeded; the buffer is the initialised ACL. -/
theorem writeBack_writes (P : Platform) (o : Object) (s : State) (n : Nat) (v : List ACE) :
    (writeBack P o s n v).2.writes =
      if v.length < n ∧ newAclSize v ≠ 0 ∧ o.initializeAclErr = none then
        s.writes ++ [⟨o.path, InitializeAcl (newAclSize v) ACL_REVISION, o.setSecInfoRet⟩]
      else s.writes := by
  unfold writeBack
  by_cases h1 : v.length < n
  · by_cases h2 : newAclSize v = 0
    · simp [h1, h2]
    · cases h3 : o.initializeAclErr with
      | some e => simp [h1, h2, h3, State.Write]
      | none =>
        by_cases h4 : o.setSecInfoRet = 0
        · simp [h1, h2, h3, h4, State.Write]
        · simp [h1, h2, h3, h4, State.Write]
  · simp [h1]

/-- The write trace after the callback: one call of `SetNamedSecurityInfoW` is added exactly
when the calls before the loop succeed, entries were dropped, the buffer could be allocated and
`InitializeAcl` succeeded.  The buffer handed over is the initialised, empty ACL. -/
theorem walkFn_writes (P : Platform) (s : State) (o : Object) :
    (cleanOrphanedACLs_walkFn P s o).2.writes =
      if readsOk o ∧ (retained P o).length < (GetAclInformation o.dacl).AceCount ∧
          newAclSize (retained P o) ≠ 0 ∧ o.initializeAclErr = none then
        s.writes ++ [⟨o.path, InitializeAcl (newAclSize (retained P o)) ACL_REVISION,
          o.setSecInfoRet⟩]
      else s.writes := by
  by_cases hr : readsOk o
  · rw [walkFn_of_readsOk P s o hr, writeBack_writes]
    simp only [hr, true_and]
    simp [(freeSD_fields P o _).2.2]
  · have hneg : ¬ (readsOk o ∧ (retained P o).length < (GetAclInformation o.dacl).AceCount ∧
        newAclSize (retained P o) ≠ 0 ∧ o.initializeAclErr = none) := fun h => hr h.1
    rw [if_neg hneg]
    unfold readsOk at hr
    unfold cleanOrphanedACLs_walkFn
    cases h1 : o.walkErr with
    | some e => by_cases hp : e.isPermission = true <;> simp [hp, State.Write]
    | none =>
      by_cases h2 : hasNul o.path = true
      · simp [h2, State.Write]
      · by_cases h3 : o.secInfoRet = 0
        · by_cases h4 : o.daclFails = true
          · simp [h2, h3, h4, State.Write, (freeSD_fields P o _).2.2]
          · by_cases h5 : o.present = true
            · cases h6 : o.aclInfoErr with
              | some e => simp [h2, h3, h4, h5, State.Write, (freeSD_fields P o _).2.2]
              | none =>
                exfalso
                apply hr
                simp at h2 h4
                exact ⟨h1, h2, h3, h4, h5, h6⟩
            · simp [h2, h3, h4, h5, State.Write, (freeSD_fields P o _).2.2]
        · simp only [h2, h3, State.Write]
          simp only [ne_eq, h3, not_false_eq_true, if_true, Bool.false_eq_true, if_false]
          by_cases h7 : o.secInfoRet % 2 ^ 32 = 5
          · rw [if_pos h7]
          · rw [if_neg h7]

/-- The calls issued for one object, spelled out. -/
theorem issued_eq (P : Platform) (s : State) (o : Object) :
    issued P s o =
      if readsOk o ∧ (retained P o).length < (GetAclInformation o.dacl).AceCount ∧
          newAclSize (retained P o) ≠ 0 ∧ o.initializeAclErr = none then
        [⟨o.path, InitializeAcl (newAclSize (retained P o)) ACL_REVISION, o.setSecInfoRet⟩]
      else [] := by
  unfold issued
  rw [walkFn_writes]
  split <;> simp

/-- When the calls of `GetAce` succeed, the retained entries are the resolvable ones. -/
theorem retained_eq_filter (P : Platform) (o : Object)
    (hget : ∀ i, i < (GetAclInformation o.dacl).AceCount → ∃ a, GetAce o i = .ok a) :
    retained P o
      = (o.dacl.aces.take (GetAclInformation o.dacl).AceCount).filter (resolvable P) := by
  simpa [retained] using aceLoop_valid_of_getAce_ok P o _ hget ⟨[], [], 0⟩

/-- The entries reached by successful calls of `GetAce` are as many as the entry count. -/
theorem length_take_of_getAce_ok (o : Object) (n : Nat)
    (hget : ∀ i, i < n → ∃ a, GetAce o i = .ok a) :
    (o.dacl.aces.take n).length = n := by
  rcases Nat.eq_zero_or_pos n with h0 | hpos
  · simp [h0]
  · obtain ⟨a, ha⟩ := hget (n - 1) (by omega)
    have hsome := GetAce_ok ha
    have hlt : n - 1 < o.dacl.aces.length := by
      by_contra hge
      rw [List.getElem?_eq_none (by omega)] at hsome
      cases hsome
    simp only [List.length_take]
    omega

/-- The release of the descriptor changes nothing when there is nothing to release or
`LocalFree` succeeds. -/
theorem freeSD_eq_self (P : Platform) (o : Object) (s : State)
    (h : o.pSD = 0 ∨ o.localFreeErr = none) : freeSD P o s = s := by
  unfold freeSD
  rcases h with h | h
  · simp [h]
  · simp [h]

/-- The value `writeBack` returns: a panic when entries were dropped and the computed size is
zero, `nil` otherwise. -/
theorem writeBack_ret (P : Platform) (o : Object) (s : State) (n : Nat) (v : List ACE) :
    (writeBack P o s n v).1 = if v.length < n ∧ newAclSize v = 0 then .panic else .nil := by
  unfold writeBack
  by_cases h1 : v.length < n
  · by_cases h2 : newAclSize v = 0
    · simp [h1, h2]
    · cases h3 : o.initializeAclErr with
      | some e => simp [h1, h2, h3]
      | none => by_cases h4 : o.setSecInfoRet = 0 <;> simp [h1, h2, h3, h4]
  · simp [h1]

/-- The log after `writeBack`: one terminal record (`ERROR` or `UPDATED`) is appended when
entries were dropped and the buffer could be allocated, nothing otherwise. -/
theorem writeBack_log (P : Platform) (o : Object) (s : State) (n : Nat) (v : List ACE) :
    ∃ tail, (writeBack P o s n v).2.logFile = s.logFile ++ tail ∧
      (tail.filter isTerminal).length = if v.length < n ∧ newAclSize v ≠ 0 then 1 else 0 := by
  unfold writeBack
  by_cases h1 : v.length < n
  · by_cases h2 : newAclSize v = 0
    · exact ⟨[], by simp [h1, h2]⟩
    · cases h3 : o.initializeAclErr with
      | some e =>
        exact ⟨[⟨"ERROR", o.path, "Neue ACL-Fehler: " ++ P.errnoText e⟩],
          by simp [h1, h2, h3, State.Write, isTerminal]⟩
      | none =>
        by_cases h4 : o.setSecInfoRet = 0
        · exact ⟨[⟨"UPDATED", o.path, "ACLs bereinigt: "
            ++ toString ((n : Int) - (v.length : Int)) ++ " entfernt"⟩],
            by simp [h1, h2, h3, h4, State.Write, isTerminal]⟩
        · exact ⟨[⟨"ERROR", o.path, errorMsg P "ACL-Update-Fehler: " o.setSecInfoRet⟩],
            by simp [h1, h2, h3, h4, State.Write, isTerminal]⟩
  · exact ⟨[], by simp [h1]⟩

/-- The callback on an object for which a call before the loop fails: one `ERROR` record for
the path is written and the callback returns; the three cases are the walk error, a failure up
to `GetNamedSecurityInfoW`, and a failure after the descriptor was released. -/
theorem walkFn_of_not_readsOk (P : Platform) (s : State) (o : Object) (h : ¬ readsOk o) :
    ∃ r : Record, r.Action = "ERROR" ∧ r.Path = o.path ∧
      ((∃ e, o.walkErr = some e ∧ cleanOrphanedACLs_walkFn P s o
          = (if e.isPermission = true then .SkipDir else .nil, s.Write r)) ∨
       (o.walkErr = none ∧ (hasNul o.path = true ∨ o.secInfoRet ≠ 0) ∧
          cleanOrphanedACLs_walkFn P s o
            = (if hasNul o.path = false ∧ o.secInfoRet % 2 ^ 32 = 5 then .SkipDir else .nil,
                State.Write { s with processedFiles := s.processedFiles + 1 } r)) ∨
       (o.walkErr = none ∧ hasNul o.path = false ∧ o.secInfoRet = 0 ∧
          cleanOrphanedACLs_walkFn P s o
            = (.nil, (freeSD P o { s with processedFiles := s.processedFiles + 1 }).Write r))) := by
  unfold readsOk at h
  unfold cleanOrphanedACLs_walkFn
  cases h1 : o.walkErr with
  | some e =>
    refine ⟨⟨"ERROR", o.path, "Scan-Fehler: " ++ e.text⟩, rfl, rfl, Or.inl ⟨e, rfl, ?_⟩⟩
    by_cases hp : e.isPermission = true <;> simp [hp]
  | none =>
    by_cases h2 : hasNul o.path = true
    · refine ⟨⟨"ERROR", o.path, "Pfad-Konvertierung fehlgeschlagen: invalid argument"⟩,
        rfl, rfl, Or.inr (Or.inl ⟨rfl, Or.inl h2, ?_⟩)⟩
      simp [h2]
    · have h2f : hasNul o.path = false := by simpa using h2
      by_cases h3 : o.secInfoRet = 0
      · by_cases h4 : o.daclFails = true
        · refine ⟨⟨"ERROR", o.path, "DACL-Fehler"⟩, rfl, rfl,
            Or.inr (Or.inr ⟨rfl, h2f, h3, ?_⟩)⟩
          simp [h2f, h3, h4]
        · by_cases h5 : o.present = true
          · cases h6 : o.aclInfoErr with
            | some e =>
              refine ⟨⟨"ERROR", o.path, "ACL-Info-Fehler: " ++ P.errnoText e⟩, rfl, rfl,
                Or.inr (Or.inr ⟨rfl, h2f, h3, ?_⟩)⟩
              simp [h2f, h3, h4, h5]
            | none =>
              exfalso
              apply h
              simp at h4
              exact ⟨h1, h2f, h3, h4, h5, h6⟩
          · refine ⟨⟨"ERROR", o.path, "DACL-Fehler"⟩, rfl, rfl,
              Or.inr (Or.inr ⟨rfl, h2f, h3, ?_⟩)⟩
            simp [h2f, h3, h4, h5]
      · refine ⟨⟨"ERROR", o.path, errorMsg P "Security-Info-Fehler: " o.secInfoRet⟩,
          rfl, rfl, Or.inr (Or.inl ⟨rfl, Or.inr h3, ?_⟩)⟩
        simp only [h2f, Bool.false_eq_true, if_false, ne_eq, h3, not_false_eq_true, if_true,
          true_and]
        by_cases h7 : o.secInfoRet % 2 ^ 32 = 5
        · rw [if_pos h7, if_pos h7]
        · rw [if_neg h7, if_neg h7]

/-- C1 (the code departs from the claim): for the entries `[A, B, C]` with `B` unresolvable the
loop retains `[A, C]`, and the buffer handed to `SetNamedSecurityInfoW` is the freshly
initialised ACL of 52 bytes with entry count 0 and no entries: the retained entries are never
added to it. -/
theorem written_dacl_holds_no_entries :
    (aceLoop demoPlatform objectABC (GetAclInformation objectABC.dacl).AceCount
        ⟨[], [], 0⟩).validACEs = [aceA, aceC] ∧
    (cleanOrphanedACLs_walkFn demoPlatform initState objectABC).2.writes
      = [⟨objectABC.path, ⟨ACL_REVISION, 52, 0, []⟩, 0⟩] := by
  decide

/-- C2: when every call of `GetAce` for the `N` entries of the DACL succeeds and `k` of the
entries have a trustee whose account lookup fails, the list `validACEs` built by the loop is
the list of the resolvable entries in their original order (a sub-sequence of the entries) and
has `N - k` elements. -/
theorem validACEs_is_resolvable_subsequence (P : Platform) (o : Object) (log : List Record)
    (c k : Nat)
    (hget : ∀ i, i < (GetAclInformation o.dacl).AceCount → ∃ a, GetAce o i = .ok a)
    (hk : (o.dacl.aces.take (GetAclInformation o.dacl).AceCount).countP
      (fun a => !resolvable P a) = k) :
    let N := (GetAclInformation o.dacl).AceCount
    let entries := o.dacl.aces.take N
    let validACEs := (aceLoop P o N ⟨[], log, c⟩).validACEs
    entries.length = N ∧ validACEs = entries.filter (resolvable P) ∧
      validACEs.length = N - k ∧ validACEs.Sublist entries := by
  intro N entries validACEs
  have hv : validACEs = entries.filter (resolvable P) := by
    simpa using aceLoop_valid_of_getAce_ok P o N hget ⟨[], log, c⟩
  have hlen : entries.length = N := by
    rcases Nat.eq_zero_or_pos N with h0 | hpos
    · simp [entries, h0]
    · obtain ⟨a, ha⟩ := hget (N - 1) (by omega)
      have hsome := GetAce_ok ha
      have hlt : N - 1 < o.dacl.aces.length := by
        by_contra hge
        rw [List.getElem?_eq_none (by omega)] at hsome
        cases hsome
      simp only [entries, List.length_take]
      omega
  refine ⟨hlen, hv, ?_, ?_⟩
  · have hsplit := List.length_eq_countP_add_countP (resolvable P) entries
    have hk1 : entries.countP (fun a => !resolvable P a) = k := hk
    have hk2 : entries.countP (fun a => ¬ resolvable P a = true) = k := by
      rw [← hk1]
      congr 1
      funext a
      cases resolvable P a <;> simp
    rw [hv, ← List.countP_eq_length_filter]
    omega
  · rw [hv]
    exact List.filter_sublist entries

/-- Witness of C2: the entries `[A, B, C]` with `B` unresolvable, `N = 3` and `k = 1`. -/
theorem validACEs_is_resolvable_subsequence_witness :
    (objectABC.dacl.aces.take (GetAclInformation objectABC.dacl).AceCount).length = 3 ∧
    (aceLoop demoPlatform objectABC 3 ⟨[], [], 0⟩).validACEs = [aceA, aceC] ∧
    (aceLoop demoPlatform objectABC 3 ⟨[], [], 0⟩).validACEs.length = 3 - 1 :=
  have h := validACEs_is_resolvable_subsequence demoPlatform objectABC [] 0 1
    (by
      intro i hi
      have h3 : i < 3 := hi
      interval_cases i <;> exact ⟨_, rfl⟩)
    (by decide)
  ⟨h.1, h.2.1.trans (by decide), h.2.2.1⟩

/-- C3: for a DACL whose bytes in use are the 8-byte header plus the sizes of all its entries,
with that number representable in `uint32`, the size `newAclSize` computed in `uint32`
arithmetic for the kept entries equals the header size plus the sum of their sizes (no
wrap-around) and is at most the original bytes in use. -/
theorem newAclSize_le_bytes_in_use (P : Platform) (o : Object) (log : List Record)
    (c bytesInUse : Nat)
    (hinv : bytesInUse = aclHeaderSize + (o.dacl.aces.map (fun a => a.Header.AceSize)).sum)
    (h32 : bytesInUse < 2 ^ 32) :
    let validACEs :=
      (aceLoop P o (GetAclInformation o.dacl).AceCount ⟨[], log, c⟩).validACEs
    newAclSize validACEs
        = aclHeaderSize + (validACEs.map (fun a => a.Header.AceSize)).sum ∧
      newAclSize validACEs ≤ bytesInUse := by
  intro validACEs
  obtain ⟨l, hl, hsub⟩ :=
    aceLoop_valid_sublist P o (GetAclInformation o.dacl).AceCount ⟨[], log, c⟩
  have hv : validACEs = l := by simpa using hl
  have hsub2 : validACEs.Sublist o.dacl.aces := by
    rw [hv]
    exact hsub.trans (List.take_sublist _ _)
  have hsum : (validACEs.map (fun a => a.Header.AceSize)).sum
      ≤ (o.dacl.aces.map (fun a => a.Header.AceSize)).sum :=
    List.Sublist.sum_le_sum (hsub2.map _) (fun _ _ => Nat.zero_le _)
  have heq := newAclSize_eq validACEs (by omega)
  exact ⟨heq, by omega⟩

/-- Witness of C3: the entries `[A, B, C]` use 88 bytes, the kept ones 52. -/
theorem newAclSize_le_bytes_in_use_witness :
    newAclSize (aceLoop demoPlatform objectABC (GetAclInformation objectABC.dacl).AceCount
        ⟨[], [], 0⟩).validACEs ≤ 88 :=
  (newAclSize_le_bytes_in_use demoPlatform objectABC [] 0 88 (by decide) (by decide)).2

/-- C4: for an object whose read succeeds (the calls before the loop and every call of
`GetAce`) and whose DACL has no unresolvable entry, the callback issues no call of
`SetNamedSecurityInfoW`; the call is issued if and only if the number of retained entries is
strictly less than the entry count of the DACL, and here the two are equal. -/
theorem no_write_when_all_resolvable (P : Platform) (s : State) (o : Object)
    (hread : readsOk o)
    (hget : ∀ i, i < (GetAclInformation o.dacl).AceCount → ∃ a, GetAce o i = .ok a)
    (hres : ∀ a ∈ o.dacl.aces.take (GetAclInformation o.dacl).AceCount,
      resolvable P a = true) :
    issued P s o = [] ∧
      (issued P s o ≠ [] ↔ (retained P o).length < (GetAclInformation o.dacl).AceCount) ∧
      (retained P o).length = (GetAclInformation o.dacl).AceCount := by
  have hlen : (retained P o).length = (GetAclInformation o.dacl).AceCount := by
    rw [retained_eq_filter P o hget, List.filter_eq_self.mpr hres]
    exact length_take_of_getAce_ok o _ hget
  have hiss : issued P s o = [] := by
    rw [issued_eq, if_neg]
    intro h
    omega
  refine ⟨hiss, ?_, hlen⟩
  rw [hiss, hlen]
  simp

/-- Witness of C4: an object with the resolvable entries `[A, C]` only. -/
theorem no_write_when_all_resolvable_witness :
    issued demoPlatform initState objectClean = [] :=
  (no_write_when_all_resolvable demoPlatform initState
    objectClean (by decide)
    (by
      intro i hi
      have h2 : i < 2 := hi
      interval_cases i <;> exact ⟨_, rfl⟩)
    (by decide)).1

/-- C5: when the callback issues a call of `SetNamedSecurityInfoW` that succeeds and the DACL
of the object becomes the buffer that was written, the callback run again on that object (same
platform, whatever the other answers and the variables are) issues no call: the second run
leaves the object unchanged. -/
theorem second_run_issues_no_write (P : Platform) (s s2 : State) (o o2 : Object)
    (w : WriteCall) (hw : w ∈ issued P s o) (hok : w.ret = 0) (hdacl : o2.dacl = w.newDacl) :
    issued P s2 o2 = [] := by
  have hcount : (GetAclInformation o2.dacl).AceCount = 0 := by
    rw [issued_eq] at hw
    split at hw
    · simp only [List.mem_singleton] at hw
      rw [hdacl, hw]
      rfl
    · cases hw
  rw [issued_eq, if_neg]
  intro h
  omega

/-- Witness of C5: the first run on `[A, B, C]` writes the 52-byte buffer with success; the
object with that buffer as its DACL gets no second write. -/
theorem second_run_issues_no_write_witness :
    issued demoPlatform initState { objectABC with dacl := ⟨ACL_REVISION, 52, 0, []⟩ } = [] :=
  second_run_issues_no_write demoPlatform initState initState objectABC
    { objectABC with dacl := ⟨ACL_REVISION, 52, 0, []⟩ }
    ⟨objectABC.path, ⟨ACL_REVISION, 52, 0, []⟩, 0⟩ (by decide) rfl rfl

/-- C6: when the owner of an object is read successfully, the owner after the callback of
`fixOrphanedOwners` is the original owner or `newOwnerSID`: it stays the original one, with no
write issued, when the account lookup of the owner succeeds; it is `newOwnerSID` when the lookup
fails and the write succeeds; it stays the original one when the write fails. -/
theorem owner_is_original_or_replacement (P : Platform) (newOwnerSID : Nat) (s : OwnerState)
    (o : OwnerObject) (hwalk : o.walkErr = none) (hinfo : o.getSecurityInfoErr = none)
    (howner : o.getOwnerErr = none) :
    let r := fixOrphanedOwners_walkFn P newOwnerSID s o
    (r.2.2.owner = o.owner ∨ r.2.2.owner = newOwnerSID) ∧
    (P.LookupAccount o.owner = none → r.2.2.owner = o.owner ∧ r.2.1.writes = s.writes) ∧
    (P.LookupAccount o.owner ≠ none → o.setSecurityInfoErr = none →
      r.2.2.owner = newOwnerSID ∧ r.2.1.writes = s.writes ++ [⟨o.path, newOwnerSID⟩]) ∧
    (P.LookupAccount o.owner ≠ none → o.setSecurityInfoErr ≠ none → r.2.2.owner = o.owner) := by
  intro r
  have hr : r = fixOrphanedOwners_walkFn P newOwnerSID s o := rfl
  unfold fixOrphanedOwners_walkFn at hr
  simp only [hwalk, hinfo, howner] at hr
  cases hl : P.LookupAccount o.owner with
  | none =>
    simp only [hl] at hr
    rw [hr]
    simp
  | some e =>
    cases hset : o.setSecurityInfoErr with
    | none =>
      simp only [hl, SetSecurityInfo, hset] at hr
      rw [hr]
      simp [OwnerState.Write]
    | some e1 =>
      simp only [hl, SetSecurityInfo, hset] at hr
      rw [hr]
      simp [OwnerState.Write]

/-- Witness of C6: a file owned by the unresolvable SID 2 gets the replacement owner 7. -/
theorem owner_is_original_or_replacement_witness :
    (fixOrphanedOwners_walkFn demoPlatform 7 initOwnerState ownerOrphan).2.2.owner = 7 :=
  ((owner_is_original_or_replacement demoPlatform 7 initOwnerState ownerOrphan
    rfl rfl rfl).2.2.1 (by decide) rfl).1

/-- C7, as stated, fails: an object on which every call succeeds and every entry is resolvable
is processed (the counter goes to 1) and yields no terminal record at all, and an object on
which two calls of `GetAce` fail yields three terminal records (two `ERROR`, one `UPDATED`). -/
theorem terminal_records_not_exactly_one :
    (cleanOrphanedACLs_walkFn demoPlatform initState objectClean).2.processedFiles = 1 ∧
    ((emitted demoPlatform initState objectClean).filter isTerminal).length = 0 ∧
    (cleanOrphanedACLs_walkFn demoPlatform initState objectAceErrors).2.processedFiles = 1 ∧
    ((emitted demoPlatform initState objectAceErrors).map (fun r => r.Action))
      = ["ERROR", "ERROR", "UPDATED"] ∧
    ((emitted demoPlatform initState objectAceErrors).filter isTerminal).length = 3 := by
  decide

/-- C7, amended: a processed object (no walk error) for which `LocalFree` does not fail, every
call of `GetAce` succeeds and the callback returns yields no terminal record when every call
succeeds and every entry is retained, and exactly one terminal record otherwise. -/
theorem terminal_records_of_processed (P : Platform) (s : State) (o : Object)
    (hproc : o.walkErr = none)
    (hfree : o.pSD = 0 ∨ o.localFreeErr = none)
    (hget : readsOk o →
      ∀ i, i < (GetAclInformation o.dacl).AceCount → ∃ a, GetAce o i = .ok a)
    (hret : (cleanOrphanedACLs_walkFn P s o).1 ≠ .panic) :
    (cleanOrphanedACLs_walkFn P s o).2.processedFiles = s.processedFiles + 1 ∧
    ((emitted P s o).filter isTerminal).length =
      if readsOk o ∧ (retained P o).length = (GetAclInformation o.dacl).AceCount then 0
      else 1 := by
  by_cases hr : readsOk o
  · have hw := walkFn_of_readsOk P s o hr
    rw [freeSD_eq_self P o _ hfree] at hw
    obtain ⟨infos, hi1, hi2, _, hi4⟩ := aceLoop_log_of_getAce_ok P o
      (GetAclInformation o.dacl).AceCount (hget hr) ⟨[], s.logFile, s.cleanedFiles⟩
    rw [aceLoop_valid_eq_retained] at hi4
    obtain ⟨tail, ht1, ht2⟩ := writeBack_log P o
      { processedFiles := s.processedFiles + 1,
        cleanedFiles := (aceLoop P o (GetAclInformation o.dacl).AceCount
          ⟨[], s.logFile, s.cleanedFiles⟩).cleanedFiles,
        logFile := (aceLoop P o (GetAclInformation o.dacl).AceCount
          ⟨[], s.logFile, s.cleanedFiles⟩).logFile,
        writes := s.writes }
      (GetAclInformation o.dacl).AceCount (retained P o)
    have hpanic : ¬ ((retained P o).length < (GetAclInformation o.dacl).AceCount ∧
        newAclSize (retained P o) = 0) := by
      intro hp
      apply hret
      rw [hw, writeBack_ret, if_pos hp]
    have hproc1 : (cleanOrphanedACLs_walkFn P s o).2.processedFiles = s.processedFiles + 1 := by
      rw [hw]
      unfold writeBack
      by_cases h1 : (retained P o).length < (GetAclInformation o.dacl).AceCount
      · by_cases h2 : newAclSize (retained P o) = 0
        · exact absurd ⟨h1, h2⟩ hpanic
        · cases h3 : o.initializeAclErr with
          | some e => simp [h1, h2, h3, State.Write]
          | none => by_cases h4 : o.setSecInfoRet = 0 <;> simp [h1, h2, h3, h4, State.Write]
      · simp [h1]
    refine ⟨hproc1, ?_⟩
    have hem : emitted P s o = infos ++ tail := by
      unfold emitted
      rw [hw, ht1]
      simp only [hi1, List.append_assoc, List.drop_left]
    have hinfos : infos.filter isTerminal = [] := by
      rw [List.filter_eq_nil_iff]
      intro r hrm
      simp [isTerminal, hi2 r hrm]
    rw [hem, List.filter_append, hinfos, List.nil_append, ht2]
    simp only [List.length_nil, Nat.zero_add] at hi4
    by_cases hlt : (retained P o).length < (GetAclInformation o.dacl).AceCount
    · have hne : newAclSize (retained P o) ≠ 0 := fun h0 => hpanic ⟨hlt, h0⟩
      rw [if_pos ⟨hlt, hne⟩, if_neg]
      intro h
      omega
    · rw [if_neg (fun h => hlt h.1), if_pos]
      exact ⟨hr, by omega⟩
  · rw [if_neg (fun h => hr h.1)]
    obtain ⟨r, hra, _, hcase⟩ := walkFn_of_not_readsOk P s o hr
    have hterm : isTerminal r = true := by simp [isTerminal, hra]
    rcases hcase with ⟨e, he, _⟩ | ⟨_, _, hw⟩ | ⟨_, _, _, hw⟩
    · rw [hproc] at he
      cases he
    · refine ⟨by rw [hw]; rfl, ?_⟩
      unfold emitted
      rw [hw]
      simp [State.Write, hterm]
    · rw [freeSD_eq_self P o _ hfree] at hw
      refine ⟨by rw [hw]; rfl, ?_⟩
      unfold emitted
      rw [hw]
      simp [State.Write, hterm]

/-- Witness of C7 amended: the entries `[A, B, C]` with `B` dropped give one terminal record. -/
theorem terminal_records_of_processed_witness :
    ((emitted demoPlatform initState objectABC).filter isTerminal).length = 1 :=
  (terminal_records_of_processed demoPlatform initState objectABC rfl (Or.inr rfl)
    (by
      intro _ i hi
      have h3 : i < 3 := hi
      interval_cases i <;> exact ⟨_, rfl⟩)
    (by decide)).2.trans (by decide)

/-- C8, as stated, fails: on a file whose security descriptor cannot be read because access is
denied (`GetNamedSecurityInfoW` returns 5) the callback logs the `ERROR` record and returns
`filepath.SkipDir`, not `nil`.  The callback never looks at `info`, so the result is the same
for a directory and for a file. -/
theorem access_denied_returns_SkipDir :
    (emitted demoPlatform initState objectDenied).map (fun r => r.Action) = ["ERROR"] ∧
    (cleanOrphanedACLs_walkFn demoPlatform initState objectDenied).1 = .SkipDir ∧
    (cleanOrphanedACLs_walkFn demoPlatform initState objectDenied).1 ≠ .nil := by
  decide

/-- C8, amended: the callback returns `filepath.SkipDir` exactly when the walk reports a
permission error or `GetNamedSecurityInfoW` fails with a code whose `uint32` value is 5; it
panics exactly when entries were dropped and the computed size is zero; on every other path,
whatever call fails there, it returns `nil`. -/
theorem walkFn_result (P : Platform) (s : State) (o : Object) :
    ((cleanOrphanedACLs_walkFn P s o).1 = .SkipDir ↔
      (∃ e, o.walkErr = some e ∧ e.isPermission = true) ∨
      (o.walkErr = none ∧ hasNul o.path = false ∧ o.secInfoRet ≠ 0 ∧
        o.secInfoRet % 2 ^ 32 = 5)) ∧
    ((cleanOrphanedACLs_walkFn P s o).1 = .panic ↔
      readsOk o ∧ (retained P o).length < (GetAclInformation o.dacl).AceCount ∧
        newAclSize (retained P o) = 0) ∧
    ((cleanOrphanedACLs_walkFn P s o).1 ≠ .SkipDir →
      (cleanOrphanedACLs_walkFn P s o).1 ≠ .panic →
      (cleanOrphanedACLs_walkFn P s o).1 = .nil) := by
  refine ⟨?_, ?_, ?_⟩
  · by_cases hr : readsOk o
    · rw [walkFn_of_readsOk P s o hr, writeBack_ret]
      obtain ⟨h1, _, h3, _⟩ := hr
      constructor
      · intro h
        split at h <;> cases h
      · rintro (⟨e, he, _⟩ | ⟨_, _, hne, _⟩)
        · rw [h1] at he
          cases he
        · exact absurd h3 hne
    · obtain ⟨r, _, _, hcase⟩ := walkFn_of_not_readsOk P s o hr
      rcases hcase with ⟨e, he, hw⟩ | ⟨h1, h23, hw⟩ | ⟨h1, h2, h3, hw⟩
      · rw [hw]
        constructor
        · intro h
          by_cases hp : e.isPermission = true
          · exact Or.inl ⟨e, he, hp⟩
          · simp [hp] at h
        · rintro (⟨e1, he1, hp1⟩ | ⟨h1, _⟩)
          · rw [he] at he1
            cases he1
            simp [hp1]
          · rw [h1] at he
            cases he
      · rw [hw]
        constructor
        · intro h
          by_cases hc : hasNul o.path = false ∧ o.secInfoRet % 2 ^ 32 = 5
          · refine Or.inr ⟨h1, hc.1, ?_, hc.2⟩
            rcases h23 with h2 | h3
            · rw [hc.1] at h2
              cases h2
            · exact h3
          · rw [if_neg hc] at h
            cases h
        · rintro (⟨e1, he1, _⟩ | ⟨_, h2, _, h5⟩)
          · rw [h1] at he1
            cases he1
          · rw [if_pos ⟨h2, h5⟩]
      · rw [hw]
        constructor
        · intro h
          cases h
        · rintro (⟨e1, he1, _⟩ | ⟨_, _, hne, _⟩)
          · rw [h1] at he1
            cases he1
          · exact absurd h3 hne
  · by_cases hr : readsOk o
    · rw [walkFn_of_readsOk P s o hr, writeBack_ret]
      constructor
      · intro h
        by_cases hc : (retained P o).length < (GetAclInformation o.dacl).AceCount ∧
            newAclSize (retained P o) = 0
        · exact ⟨hr, hc⟩
        · rw [if_neg hc] at h
          cases h
      · rintro ⟨_, hc⟩
        rw [if_pos hc]
    · obtain ⟨r, _, _, hcase⟩ := walkFn_of_not_readsOk P s o hr
      constructor
      · intro h
        rcases hcase with ⟨e, _, hw⟩ | ⟨_, _, hw⟩ | ⟨_, _, _, hw⟩
        · rw [hw] at h
          dsimp only at h
          split at h <;> cases h
        · rw [hw] at h
          dsimp only at h
          split at h <;> cases h
        · rw [hw] at h
          cases h
      · rintro ⟨h, _⟩
        exact absurd h hr
  · intro h1 h2
    cases h : (cleanOrphanedACLs_walkFn P s o).1 with
    | nil => rfl
    | SkipDir => exact absurd h h1
    | panic => exact absurd h h2

/-- C9 (the code departs from the claim): a run over one file whose only entry `B` is
unresolvable and on which `SetNamedSecurityInfoW` fails with 5.  The write is attempted and
fails, the log holds no `UPDATED` record, and yet the summary reports `Bereinigt: 1`: the
counter was incremented when the orphaned SID was found, before the write. -/
theorem summary_counts_entry_of_failed_write :
    (cleanOrphanedACLs demoPlatform "C:\\data" [] [objectWriteDenied]).2.writes.map
        (fun w => w.ret) = [5] ∧
    (cleanOrphanedACLs demoPlatform "C:\\data" [] [objectWriteDenied]).2.logFile.map
        (fun r => r.Action) = ["INFO", "ERROR", "SUMMARY"] ∧
    (cleanOrphanedACLs demoPlatform "C:\\data" [] [objectWriteDenied]).2.logFile.filter
        (fun r => r.Action == "UPDATED") = [] ∧
    (cleanOrphanedACLs demoPlatform "C:\\data" [] [objectWriteDenied]).2.cleanedFiles = 1 ∧
    (cleanOrphanedACLs demoPlatform "C:\\data" [] [objectWriteDenied]).2.logFile.getLast?
      = some ⟨"SUMMARY", "C:\\data", "Verarbeitet: 1, Bereinigt: 1"⟩ := by
  decide

/-- C10: when the walk reports no error, the path converts and `GetNamedSecurityInfoW` returns
5 (access denied), the callback appends exactly one record, an `ERROR` record for that path,
issues no call of `SetNamedSecurityInfoW`, increments `processedFiles` by exactly one and leaves
`cleanedFiles` alone. -/
theorem access_denied_read (P : Platform) (s : State) (o : Object)
    (hwalk : o.walkErr = none) (hnul : hasNul o.path = false) (h5 : o.secInfoRet = 5) :
    emitted P s o = [⟨"ERROR", o.path, errorMsg P "Security-Info-Fehler: " 5⟩] ∧
    issued P s o = [] ∧
    (cleanOrphanedACLs_walkFn P s o).2.writes = s.writes ∧
    (cleanOrphanedACLs_walkFn P s o).2.processedFiles = s.processedFiles + 1 ∧
    (cleanOrphanedACLs_walkFn P s o).2.cleanedFiles = s.cleanedFiles := by
  have hw : cleanOrphanedACLs_walkFn P s o = (.SkipDir,
      State.Write { s with processedFiles := s.processedFiles + 1 }
        ⟨"ERROR", o.path, errorMsg P "Security-Info-Fehler: " 5⟩) := by
    unfold cleanOrphanedACLs_walkFn
    simp [hwalk, hnul, h5]
  unfold emitted issued
  rw [hw]
  simp [State.Write]

/-- Witness of C10: the file `objectDenied`, whose read returns 5. -/
theorem access_denied_read_witness :
    (cleanOrphanedACLs_walkFn demoPlatform initState objectDenied).2.processedFiles = 1 ∧
    issued demoPlatform initState objectDenied = [] :=
  have h := access_denied_read demoPlatform initState objectDenied rfl (by decide) rfl
  ⟨h.2.2.2.1, h.2.1⟩

end OrphanCleaner

/-! ## Properties of `cleanupTempFiles` -/

namespace OrphanCleaner

theorem matchChunk_append (c t : List Char) : matchChunk c (c ++ t) = some t := by
  induction c with
  | nil => rfl
  | cons a c ih => simp [matchChunk, ih]

theorem matchChunk_some {c s t : List Char} (h : matchChunk c s = some t) : s = c ++ t := by
  induction c generalizing s with
  | nil =>
    simp only [matchChunk, Option.some.injEq] at h
    simp [h]
  | cons a c ih =>
    cases s with
    | nil => simp [matchChunk] at h
    | cons x s =>
      simp only [matchChunk] at h
      split at h
      · rename_i hax
        rw [hax, ih h]
        rfl
      · cases h

theorem matchChunk_none {c s : List Char} (h : matchChunk c s = none) : ¬ c <+: s := by
  rintro ⟨t, rfl⟩
  rw [matchChunk_append] at h
  cases h

/-- The loop after a star for the last chunk of a pattern, on a name without separator: the
name matches when the chunk is a suffix of the name less its first byte. -/
theorem starLoop_last (sep : Char) (chunk : List Char) (k : List Char → Option Bool)
    (hk : k [] = some true) (s : List Char) :
    ∀ x, sep ∉ x :: s → starLoop sep chunk true k (x :: s) = some (chunk.isSuffixOf s) := by
  induction s with
  | nil =>
    intro x hx
    have hxs : x ≠ sep := fun h => hx (by simp [h])
    cases chunk with
    | nil => simp [starLoop, matchChunk, hxs, hk]
    | cons a chunk => simp [starLoop, matchChunk, hxs]
  | cons y s ih =>
    intro x hx
    have hxs : x ≠ sep := fun h => hx (by simp [h])
    have hys : sep ∉ y :: s := fun h => hx (List.mem_cons_of_mem _ h)
    have hrec : y :: s ≠ chunk →
        starLoop sep chunk true k (y :: s) = some (chunk.isSuffixOf (y :: s)) := by
      intro hne
      rw [ih y hys]
      congr 1
      rw [Bool.eq_iff_iff]
      simp only [List.isSuffixOf_iff_suffix, List.suffix_cons_iff]
      constructor
      · intro h
        exact Or.inr h
      · rintro (h | h)
        · exact absurd h.symm hne
        · exact h
    rw [starLoop, if_neg hxs]
    cases hm : matchChunk chunk (y :: s) with
    | none =>
      have hne : y :: s ≠ chunk := by
        intro h
        apply matchChunk_none hm
        rw [h]
      simpa using hrec hne
    | some t =>
      have hst := matchChunk_some hm
      cases t with
      | nil =>
        simp only [List.append_nil] at hst
        simp [hk, hst]
      | cons b t =>
        have hne : y :: s ≠ chunk := by
          intro h
          have hl := congrArg List.length hst
          rw [h] at hl
          simp at hl
        simpa using hrec hne

/-- The result of `filepath.Match` for a pattern of literal bytes: equality with the name. -/
theorem Match_literal (os : GOOS) (pattern name : List Char) (hp : pattern ≠ [])
    (h1 : scanChunk pattern = (false, pattern, [])) :
    Match os pattern name = some (name == pattern) := by
  unfold Match
  obtain ⟨n, hn⟩ : ∃ n, pattern.length + 1 = n + 2 := by
    cases pattern with
    | nil => exact absurd rfl hp
    | cons a l => exact ⟨l.length, by simp⟩
  rw [hn, MatchLoop]
  have hpe : pattern.isEmpty = false := by
    cases pattern with
    | nil => exact absurd rfl hp
    | cons a l => rfl
  simp only [hpe, h1]
  cases hm : matchChunk pattern name with
  | none =>
    have hne : ¬ name = pattern := by
      intro h
      apply matchChunk_none hm
      rw [h]
    simp [hne]
  | some t =>
    have hst := matchChunk_some hm
    cases t with
    | nil =>
      simp only [List.append_nil] at hst
      simp [MatchLoop, hst]
    | cons b t =>
      have hne : ¬ name = pattern := by
        intro h
        have hl := congrArg List.length hst
        rw [h] at hl
        simp at hl
      simp [hne]

theorem isSuffixOf_cons_of_ne (suf t : List Char) (x : Char) (hne : x :: t ≠ suf) :
    suf.isSuffixOf (x :: t) = suf.isSuffixOf t := by
  rw [Bool.eq_iff_iff]
  simp only [List.isSuffixOf_iff_suffix, List.suffix_cons_iff]
  constructor
  · rintro (h | h)
    · exact absurd h.symm hne
    · exact h
  · intro h
    exact Or.inr h

/-- The round of `filepath.Match` for a last chunk `*suf` on a name without separator. -/
theorem MatchLoop_star_suffix (sep : Char) (m : Nat) (rest suf t : List Char)
    (hr : rest ≠ []) (h2 : scanChunk rest = (true, suf, [])) (hs : suf ≠ [])
    (hsep : sep ∉ t) :
    MatchLoop sep (m + 2) rest t = some (suf.isSuffixOf t) := by
  have hre : rest.isEmpty = false := by
    cases rest with
    | nil => exact absurd rfl hr
    | cons a l => rfl
  have hse : suf.isEmpty = false := by
    cases suf with
    | nil => exact absurd rfl hs
    | cons a l => rfl
  have hk : (fun u => MatchLoop sep (m + 1) [] u) [] = some true := by
    simp [MatchLoop]
  rw [MatchLoop]
  simp only [hre, h2, hse, Bool.false_eq_true, if_false, Bool.and_false, List.isEmpty_nil,
    Bool.not_true, Bool.or_false, if_true]
  cases hm2 : matchChunk suf t with
  | none =>
    cases t with
    | nil =>
      have hf : suf.isSuffixOf ([] : List Char) = false := by
        cases suf with
        | nil => exact absurd rfl hs
        | cons a l => simp
      simp [starLoop, hf]
    | cons x t =>
      have hne : x :: t ≠ suf := by
        intro h
        apply matchChunk_none hm2
        rw [h]
      simp only []
      rw [starLoop_last sep suf _ hk t x hsep, isSuffixOf_cons_of_ne suf t x hne]
  | some u =>
    have hsu := matchChunk_some hm2
    cases u with
    | nil =>
      simp only [List.append_nil] at hsu
      simp [MatchLoop, hsu]
    | cons b u =>
      cases t with
      | nil => simp at hsu
      | cons x t =>
        have hne : x :: t ≠ suf := by
          intro h
          have hl := congrArg List.length hsu
          rw [h] at hl
          simp at hl
        simp only [List.isEmpty_cons, Bool.false_eq_true, if_false]
        rw [starLoop_last sep suf _ hk t x hsep, isSuffixOf_cons_of_ne suf t x hne]

/-- The result of `filepath.Match` for a pattern `pre*suf` on a name without separator: the
name starts with `pre` and what follows ends with `suf`. -/
theorem Match_star (os : GOOS) (pattern pre rest suf name : List Char)
    (hlen : 2 ≤ pattern.length) (h1 : scanChunk pattern = (false, pre, rest))
    (hr : rest ≠ []) (h2 : scanChunk rest = (true, suf, [])) (hs : suf ≠ [])
    (hsep : Separator os ∉ name) :
    Match os pattern name
      = some (pre.isPrefixOf name && suf.isSuffixOf (name.drop pre.length)) := by
  unfold Match
  obtain ⟨n, hn⟩ : ∃ n, pattern.length + 1 = n + 3 := ⟨pattern.length - 2, by omega⟩
  have hpe : pattern.isEmpty = false := by
    cases pattern with
    | nil => simp at hlen
    | cons a l => rfl
  have hre : rest.isEmpty = false := by
    cases rest with
    | nil => exact absurd rfl hr
    | cons a l => rfl
  rw [hn, MatchLoop]
  simp only [hpe, h1, Bool.false_eq_true, if_false, Bool.false_and]
  cases hm : matchChunk pre name with
  | none =>
    have hnp : pre.isPrefixOf name = false := by
      rw [Bool.eq_false_iff]
      intro h
      exact matchChunk_none hm (List.isPrefixOf_iff_prefix.mp h)
    simp [hnp]
  | some t =>
    have hst := matchChunk_some hm
    have hpp : pre.isPrefixOf name = true := by
      rw [List.isPrefixOf_iff_prefix, hst]
      exact List.prefix_append _ _
    have hdrop : name.drop pre.length = t := by
      rw [hst]
      exact List.drop_left _ _
    have hsept : Separator os ∉ t := by
      intro h
      apply hsep
      rw [hst]
      exact List.mem_append_right _ h
    simp only [hre, hpp, hdrop, Bool.not_false, Bool.or_true, if_true, Bool.true_and]
    exact MatchLoop_star_suffix (Separator os) n rest suf t hr h2 hs hsept

/-- When the first byte of `suf` does not occur in `pre`, a name that starts with `pre` and
ends with `suf` holds the two one after the other. -/
theorem isSuffixOf_drop (pre suf name : List Char) (c : Char) (l : List Char)
    (hsuf : suf = c :: l) (hc : c ∉ pre) (hp : pre.isPrefixOf name = true) :
    suf.isSuffixOf (name.drop pre.length) = suf.isSuffixOf name := by
  obtain ⟨t, rfl⟩ := List.isPrefixOf_iff_prefix.mp hp
  rw [List.drop_left, Bool.eq_iff_iff]
  simp only [List.isSuffixOf_iff_suffix]
  constructor
  · intro h
    exact h.trans (List.suffix_append _ _)
  · rintro ⟨g, hg⟩
    rcases List.append_eq_append_iff.mp hg with ⟨a, ha, hb⟩ | ⟨a, ha, hb⟩
    · cases a with
      | nil =>
        simp only [List.nil_append] at hb
        rw [hb]
      | cons x a =>
        exfalso
        rw [hsuf] at hb
        simp only [List.cons_append, List.cons.injEq] at hb
        apply hc
        rw [ha, hb.1]
        simp
    · exact ⟨a, hb.symm⟩

/-- The loop over the patterns removes the file exactly when some pattern matches. -/
theorem matchPatterns_eq (os : GOOS) (fileName : List Char) (s : TempState) (v : TempVisit)
    (ps : List String) :
    matchPatterns os fileName s v ps =
      if ps.any (fun p => Match os p.toList fileName == some true) = true then removeFile s v
      else s := by
  induction ps with
  | nil => rfl
  | cons p ps ih =>
    unfold matchPatterns
    rw [List.any_cons]
    cases hm : Match os p.toList fileName with
    | none =>
      have hb : ((none : Option Bool) == some true) = false := rfl
      rw [hb, Bool.false_or]
      exact ih
    | some b =>
      cases b with
      | true =>
        have hb : (some true == some true) = true := rfl
        rw [hb, Bool.true_or, if_pos rfl]
      | false =>
        have hb : (some false == some true) = false := rfl
        rw [hb, Bool.false_or]
        exact ih

theorem beq_some_true (m : Option Bool) (b : Bool) (h : m = some b) :
    (m == some true) = b := by
  rw [h]
  cases b <;> rfl

theorem glob_bool (a p2 p1 d1 d2 d3 d4 d5 d6 d7 s1 s2 s3 s4 s5 s6 s7 : Bool)
    (h1 : p2 = true → d1 = s1) (h2 : p2 = true → d2 = s2) (h3 : p2 = true → d3 = s3)
    (h4 : p2 = true → d4 = s4) (h5 : p2 = true → d5 = s5) (h6 : p2 = true → d6 = s6)
    (h7 : p1 = true → d7 = s7) :
    (a || ((p2 && d1) || ((p2 && d2) || ((p2 && d3) || ((p2 && d4) || ((p2 && d5) ||
        ((p2 && d6) || ((p1 && d7) || false)))))))) =
      (a || (p2 && (s1 || (s2 || (s3 || (s4 || (s5 || (s6 || false))))))) || (p1 && s7)) := by
  cases p2 <;> cases p1 <;> simp_all
  simp only [Bool.or_assoc]

/-- On a name without separator, some pattern of the program matches exactly when the name is
unwanted in the words of the specification. -/
theorem patterns_any_eq_unwanted (os : GOOS) (name : List Char) (hsep : Separator os ∉ name) :
    patterns.any (fun p => Match os p.toList name == some true) = unwanted name := by
  have e1 : Match os "thumbs.db".toList name = some (name == "thumbs.db".toList) :=
    Match_literal os _ name (by decide) (by decide)
  have e2 := Match_star os "~$*.docx".toList "~$".toList "*.docx".toList ".docx".toList name
    (by decide) (by decide) (by decide) (by decide) (by decide) hsep
  have e3 := Match_star os "~$*.doc".toList "~$".toList "*.doc".toList ".doc".toList name
    (by decide) (by decide) (by decide) (by decide) (by decide) hsep
  have e4 := Match_star os "~$*.xlsx".toList "~$".toList "*.xlsx".toList ".xlsx".toList name
    (by decide) (by decide) (by decide) (by decide) (by decide) hsep
  have e5 := Match_star os "~$*.xls".toList "~$".toList "*.xls".toList ".xls".toList name
    (by decide) (by decide) (by decide) (by decide) (by decide) hsep
  have e6 := Match_star os "~$*.pptx".toList "~$".toList "*.pptx".toList ".pptx".toList name
    (by decide) (by decide) (by decide) (by decide) (by decide) hsep
  have e7 := Match_star os "~$*.ppt".toList "~$".toList "*.ppt".toList ".ppt".toList name
    (by decide) (by decide) (by decide) (by decide) (by decide) hsep
  have e8 := Match_star os "~*.tmp".toList "~".toList "*.tmp".toList ".tmp".toList name
    (by decide) (by decide) (by decide) (by decide) (by decide) hsep
  show ((Match os "thumbs.db".toList name == some true) ||
      ((Match os "~$*.docx".toList name == some true) ||
      ((Match os "~$*.doc".toList name == some true) ||
      ((Match os "~$*.xlsx".toList name == some true) ||
      ((Match os "~$*.xls".toList name == some true) ||
      ((Match os "~$*.pptx".toList name == some true) ||
      ((Match os "~$*.ppt".toList name == some true) ||
      ((Match os "~*.tmp".toList name == some true) || false)))))))) =
    ((name == "thumbs.db".toList) ||
      ("~$".toList.isPrefixOf name &&
        (".docx".toList.isSuffixOf name || (".doc".toList.isSuffixOf name ||
        (".xlsx".toList.isSuffixOf name || (".xls".toList.isSuffixOf name ||
        (".pptx".toList.isSuffixOf name || (".ppt".toList.isSuffixOf name || false))))))) ||
      ("~".toList.isPrefixOf name && ".tmp".toList.isSuffixOf name))
  rw [beq_some_true _ _ e1, beq_some_true _ _ e2, beq_some_true _ _ e3, beq_some_true _ _ e4,
    beq_some_true _ _ e5, beq_some_true _ _ e6, beq_some_true _ _ e7, beq_some_true _ _ e8]
  exact glob_bool _ _ _ _ _ _ _ _ _ _ _ _ _ _ _ _ _
    (fun h => isSuffixOf_drop _ ".docx".toList name _ _ rfl (by decide) h)
    (fun h => isSuffixOf_drop _ ".doc".toList name _ _ rfl (by decide) h)
    (fun h => isSuffixOf_drop _ ".xlsx".toList name _ _ rfl (by decide) h)
    (fun h => isSuffixOf_drop _ ".xls".toList name _ _ rfl (by decide) h)
    (fun h => isSuffixOf_drop _ ".pptx".toList name _ _ rfl (by decide) h)
    (fun h => isSuffixOf_drop _ ".ppt".toList name _ _ rfl (by decide) h)
    (fun h => isSuffixOf_drop _ ".tmp".toList name _ _ rfl (by decide) h)

/-- Lower-casing an ASCII letter never yields the separator. -/
theorem toLower_eq_Separator (os : GOOS) (c : Char) (h : c.toLower = Separator os) :
    c = Separator os := by
  unfold Char.toLower at h
  simp only at h
  split at h
  · rename_i hc
    exfalso
    obtain ⟨h1, h2⟩ := hc
    generalize c.toNat = n at h h1 h2
    interval_cases n <;> cases os <;> revert h <;> decide
  · exact h

/-- Lower-casing keeps a name free of separators, provided the library path for names with
bytes outside ASCII does. -/
theorem ToLower_no_Separator (os : GOOS) (MapLower : List Char → List Char)
    (hmap : ∀ n, Separator os ∉ n → Separator os ∉ MapLower n) (name : List Char)
    (hsep : Separator os ∉ name) : Separator os ∉ ToLower MapLower name := by
  unfold ToLower
  split
  · intro h
    obtain ⟨c, hc, hcs⟩ := List.mem_map.mp h
    rw [toLower_eq_Separator os c hcs] at hc
    exact hsep hc
  · exact hmap name hsep

/-- The callback on a file visited without error whose name holds no separator: the file is
counted, and it is removed exactly when its lower-cased name is unwanted. -/
theorem walkFn_of_file (os : GOOS) (MapLower : List Char → List Char)
    (hmap : ∀ n, Separator os ∉ n → Separator os ∉ MapLower n) (s : TempState) (v : TempVisit)
    (hwalk : v.walkErr = none) (hdir : v.isDir = false) (hsep : Separator os ∉ v.name) :
    cleanupTempFiles_walkFn os MapLower s v =
      if unwanted (ToLower MapLower v.name) = true then
        removeFile { s with scannedFiles := s.scannedFiles + 1 } v
      else { s with scannedFiles := s.scannedFiles + 1 } := by
  unfold cleanupTempFiles_walkFn
  simp only [hwalk, hdir, Bool.not_false, if_true]
  rw [matchPatterns_eq,
    patterns_any_eq_unwanted os _ (ToLower_no_Separator os MapLower hmap v.name hsep)]

/-- The callback never lets `deletedFiles` overtake `scannedFiles`. -/
theorem walkFn_counters (os : GOOS) (MapLower : List Char → List Char) (s : TempState)
    (v : TempVisit) (h : s.deletedFiles ≤ s.scannedFiles) :
    (cleanupTempFiles_walkFn os MapLower s v).deletedFiles
      ≤ (cleanupTempFiles_walkFn os MapLower s v).scannedFiles := by
  unfold cleanupTempFiles_walkFn
  cases hw : v.walkErr with
  | some e => simpa [TempState.Write] using h
  | none =>
    cases hd : v.isDir with
    | true => simpa using h
    | false =>
      simp only [Bool.not_false, if_true]
      rw [matchPatterns_eq]
      split
      · unfold removeFile
        cases v.removeErr with
        | none =>
          simp only [TempState.Write]
          omega
        | some e =>
          simp only [TempState.Write]
          omega
      · simp only
        omega

/-- The counters after any sequence of visits. -/
theorem foldl_counters (os : GOOS) (MapLower : List Char → List Char) (visits : List TempVisit)
    (s : TempState) (h : s.deletedFiles ≤ s.scannedFiles) :
    (visits.foldl (cleanupTempFiles_walkFn os MapLower) s).deletedFiles
      ≤ (visits.foldl (cleanupTempFiles_walkFn os MapLower) s).scannedFiles := by
  induction visits generalizing s with
  | nil => exact h
  | cons v vs ih => exact ih _ (walkFn_counters os MapLower s v h)

/-- C11: in `cleanupTempFiles`, for a file (not a directory) visited without error whose name
holds no path separator, `os.Remove` is called if and only if the lower-cased name equals
`thumbs.db`, or starts with `~$` and ends with one of `.docx`, `.doc`, `.xlsx`, `.xls`, `.pptx`,
`.ppt`, or starts with `~` and ends with `.tmp`.  The decision is the same for two names with
the same lower-casing, so it does not depend on the letter case of the name.  The file gets at
most one delete attempt and one record, `DELETE` or `ERROR`, per attempt; `scannedFiles` grows
by one and `deletedFiles` by at most one, and after every run `deletedFiles ≤ scannedFiles`.
The hypothesis `hmap` is the fact of the Go library that lower-casing creates no separator. -/
theorem delete_iff_unwanted (os : GOOS) (MapLower : List Char → List Char)
    (hmap : ∀ n, Separator os ∉ n → Separator os ∉ MapLower n) (s : TempState) (v : TempVisit)
    (hwalk : v.walkErr = none) (hdir : v.isDir = false) (hsep : Separator os ∉ v.name) :
    (attempted os MapLower s v
      = if unwanted (ToLower MapLower v.name) = true then [v.path] else []) ∧
    (attempted os MapLower s v ≠ [] ↔ unwanted (ToLower MapLower v.name) = true) ∧
    (∀ (s2 : TempState) (v2 : TempVisit), v2.walkErr = none → v2.isDir = false →
      Separator os ∉ v2.name → ToLower MapLower v2.name = ToLower MapLower v.name →
      (attempted os MapLower s2 v2 ≠ [] ↔ attempted os MapLower s v ≠ [])) ∧
    (attempted os MapLower s v).length ≤ 1 ∧
    (recorded os MapLower s v).length = (attempted os MapLower s v).length ∧
    (∀ r ∈ recorded os MapLower s v,
      r.Path = v.path ∧ (r.Action = "DELETE" ∨ r.Action = "ERROR")) ∧
    (cleanupTempFiles_walkFn os MapLower s v).scannedFiles = s.scannedFiles + 1 ∧
    (cleanupTempFiles_walkFn os MapLower s v).deletedFiles ≤ s.deletedFiles + 1 ∧
    (∀ (rootPath : String) (logFile : List Record) (visits : List TempVisit),
      (cleanupTempFiles os MapLower rootPath logFile visits).deletedFiles
        ≤ (cleanupTempFiles os MapLower rootPath logFile visits).scannedFiles) := by
  have hatt : ∀ (s1 : TempState) (v1 : TempVisit), v1.walkErr = none → v1.isDir = false →
      Separator os ∉ v1.name →
      attempted os MapLower s1 v1
        = if unwanted (ToLower MapLower v1.name) = true then [v1.path] else [] := by
    intro s1 v1 h1 h2 h3
    unfold attempted
    rw [walkFn_of_file os MapLower hmap s1 v1 h1 h2 h3]
    by_cases hu : unwanted (ToLower MapLower v1.name) = true
    · rw [if_pos hu, if_pos hu]
      unfold removeFile
      cases v1.removeErr <;> simp [TempState.Write]
    · rw [if_neg hu, if_neg hu]
      simp
  have hiff : ∀ (s1 : TempState) (v1 : TempVisit), v1.walkErr = none → v1.isDir = false →
      Separator os ∉ v1.name →
      (attempted os MapLower s1 v1 ≠ [] ↔ unwanted (ToLower MapLower v1.name) = true) := by
    intro s1 v1 h1 h2 h3
    rw [hatt s1 v1 h1 h2 h3]
    by_cases hu : unwanted (ToLower MapLower v1.name) = true
    · simp [hu]
    · simp [hu]
  have hw := walkFn_of_file os MapLower hmap s v hwalk hdir hsep
  refine ⟨hatt s v hwalk hdir hsep, hiff s v hwalk hdir hsep, ?_, ?_, ?_, ?_, ?_, ?_, ?_⟩
  · intro s2 v2 h1 h2 h3 hlow
    rw [hiff s2 v2 h1 h2 h3, hiff s v hwalk hdir hsep, hlow]
  · rw [hatt s v hwalk hdir hsep]
    split <;> simp
  · rw [hatt s v hwalk hdir hsep]
    unfold recorded
    rw [hw]
    by_cases hu : unwanted (ToLower MapLower v.name) = true
    · rw [if_pos hu, if_pos hu]
      unfold removeFile
      cases v.removeErr <;> simp [TempState.Write]
    · rw [if_neg hu, if_neg hu]
      simp
  · intro r hr
    unfold recorded at hr
    rw [hw] at hr
    by_cases hu : unwanted (ToLower MapLower v.name) = true
    · rw [if_pos hu] at hr
      unfold removeFile at hr
      cases hre : v.removeErr with
      | none =>
        simp [hre, TempState.Write] at hr
        simp [hr]
      | some e =>
        simp [hre, TempState.Write] at hr
        simp [hr]
    · rw [if_neg hu] at hr
      simp at hr
  · rw [hw]
    split
    · unfold removeFile
      cases v.removeErr <;> simp [TempState.Write]
    · rfl
  · rw [hw]
    split
    · unfold removeFile
      cases v.removeErr <;> simp [TempState.Write]
    · simp
  · intro rootPath logFile visits
    unfold cleanupTempFiles
    exact foldl_counters os MapLower visits ⟨0, 0, logFile, []⟩ (Nat.le_refl 0)

/-- Witness of C11: `Thumbs.db` is removed, and so is the same name in capitals. -/
theorem delete_iff_unwanted_witness :
    attempted .windows id initTempState (tempFile "Thumbs.db") = ["C:\\data\\Thumbs.db"] ∧
    (attempted .windows id initTempState (tempFile "THUMBS.DB") ≠ [] ↔
      attempted .windows id initTempState (tempFile "Thumbs.db") ≠ []) :=
  have h := delete_iff_unwanted .windows id (fun _ hn => hn) initTempState
    (tempFile "Thumbs.db") rfl rfl (by decide)
  ⟨h.1.trans (by decide),
    h.2.2.1 initTempState (tempFile "THUMBS.DB") rfl rfl (by decide) (by decide)⟩

end OrphanCleaner
